import Mathlib

/-!
Shallow embedding of the tinyECS component store
(`src/tinyECS/tiny_ecs.hpp`, `src/tinyECS/tiny_ecs.cpp`, and the revised
`include/tiny_ecs.hpp`) together with proofs about its operations.

Entities are identified by their numeric id (`unsigned int` in the source),
embedded as `Nat`.  The `std::unordered_map<unsigned int, unsigned int>`
entity-to-index map is embedded as an association list `List (Nat × Nat)`
with `operator[]` (insert-or-assign), `erase` and `find` modelled by
`mset`, `merase` and `mlookup`.  `std::vector` fields become `List`s.
Assertions (`assert`) are modelled as faults: a faulting operation returns
the pre-call state paired with `true` in its fault flag, mirroring the fact
that in the source every `assert` precedes all mutation.
-/

namespace ECS

/-- Lookup in the entity-to-index map: `map.find(k)` / `map.count(k)`. -/
def mlookup : List (Nat × Nat) → Nat → Option Nat
  | [], _ => none
  | p :: m, k => if p.1 = k then some p.2 else mlookup m k

/-- Insert-or-assign, `map[k] = v`: replaces the value of an existing key,
otherwise appends a fresh entry. -/
def mset : List (Nat × Nat) → Nat → Nat → List (Nat × Nat)
  | [], k, v => [(k, v)]
  | p :: m, k, v => if p.1 = k then (k, v) :: m else p :: mset m k v

/-- Erase a key, `map.erase(k)`: drops the entries holding key `k`. -/
def merase : List (Nat × Nat) → Nat → List (Nat × Nat)
  | [], _ => []
  | p :: m, k => if p.1 = k then merase m k else p :: merase m k

theorem mlookup_mset_self : ∀ (m : List (Nat × Nat)) (k v : Nat),
    mlookup (mset m k v) k = some v
  | [], k, v => by simp [mset, mlookup]
  | (a, b) :: m, k, v => by
    by_cases h : a = k
    · simp [mset, h, mlookup]
    · simp [mset, h, mlookup, mlookup_mset_self m k v]

theorem mlookup_mset_ne : ∀ (m : List (Nat × Nat)) (k v k' : Nat), k' ≠ k →
    mlookup (mset m k v) k' = mlookup m k'
  | [], k, v, k', h => by simp [mset, mlookup, Ne.symm h]
  | (a, b) :: m, k, v, k', h => by
    by_cases hp : a = k
    · subst hp
      simp [mset, mlookup, Ne.symm h]
    · by_cases hp' : a = k'
      · simp [mset, hp, mlookup, hp', h]
      · simp [mset, hp, mlookup, hp', mlookup_mset_ne m k v k' h]

theorem mlookup_merase_self : ∀ (m : List (Nat × Nat)) (k : Nat),
    mlookup (merase m k) k = none
  | [], k => by simp [merase, mlookup]
  | (a, b) :: m, k => by
    by_cases h : a = k
    · simp [merase, h, mlookup_merase_self m k]
    · simp [merase, h, mlookup, mlookup_merase_self m k]

theorem mlookup_merase_ne : ∀ (m : List (Nat × Nat)) (k k' : Nat), k' ≠ k →
    mlookup (merase m k) k' = mlookup m k'
  | [], k, k', _ => by simp [merase]
  | (a, b) :: m, k, k', h => by
    by_cases hp : a = k
    · subst hp
      simp [merase, mlookup, Ne.symm h, mlookup_merase_ne m a k' h]
    · simp [merase, hp, mlookup, mlookup_merase_ne m k k' h]

theorem mlookup_mem : ∀ {m : List (Nat × Nat)} {k v : Nat},
    mlookup m k = some v → (k, v) ∈ m
  | [], k, v, h => by simp [mlookup] at h
  | (a, b) :: m, k, v, h => by
    by_cases hp : a = k
    · subst hp
      simp [mlookup] at h
      subst h
      exact List.mem_cons_self _ _
    · simp only [mlookup, hp, reduceIte] at h
      exact List.mem_cons_of_mem _ (mlookup_mem h)

theorem mlookup_eq_none_of_forall : ∀ {m : List (Nat × Nat)} {k : Nat},
    (∀ v, (k, v) ∉ m) → mlookup m k = none
  | [], _, _ => rfl
  | (a, b) :: m, k, h => by
    by_cases hp : a = k
    · subst hp
      exact absurd (List.mem_cons_self _ _) (h b)
    · simpa [mlookup, hp] using
        mlookup_eq_none_of_forall fun v hv => h v (List.mem_cons_of_mem _ hv)

theorem not_mem_keys_of_mlookup_none : ∀ {m : List (Nat × Nat)} {k : Nat},
    mlookup m k = none → k ∉ m.map Prod.fst
  | [], _, _ => by simp
  | (a, b) :: m, k, h => by
    by_cases hp : a = k
    · simp [mlookup, hp] at h
    · simp only [mlookup, hp, reduceIte] at h
      simp only [List.map_cons, List.mem_cons]
      push_neg
      exact ⟨fun hh => hp hh.symm, fun hm => not_mem_keys_of_mlookup_none h hm⟩

theorem mlookup_none_of_not_mem_keys : ∀ {m : List (Nat × Nat)} {k : Nat},
    k ∉ m.map Prod.fst → mlookup m k = none
  | [], _, _ => rfl
  | (a, b) :: m, k, h => by
    have ha : ¬a = k := fun hh => h (by simp [hh])
    simpa [mlookup, ha] using
      mlookup_none_of_not_mem_keys fun hh => h (by simp [hh])

theorem mset_of_mlookup_none : ∀ {m : List (Nat × Nat)} {k : Nat} (v : Nat),
    mlookup m k = none → mset m k v = m ++ [(k, v)]
  | [], _, _, _ => rfl
  | (a, b) :: m, k, v, h => by
    by_cases hp : a = k
    · simp [mlookup, hp] at h
    · simp only [mlookup, hp, reduceIte] at h
      simp [mset, hp, mset_of_mlookup_none v h]

theorem mem_merase : ∀ {m : List (Nat × Nat)} {k : Nat} {p : Nat × Nat},
    p ∈ merase m k → p ∈ m ∧ p.1 ≠ k
  | [], _, _, h => by simp [merase] at h
  | (a, b) :: m, k, p, h => by
    by_cases hp : a = k
    · simp only [merase, hp, reduceIte] at h
      exact ⟨List.mem_cons_of_mem _ (mem_merase h).1, (mem_merase h).2⟩
    · simp only [merase, hp, reduceIte, List.mem_cons] at h
      rcases h with h | h
      · exact ⟨by simp [h], by simp [h, hp]⟩
      · exact ⟨List.mem_cons_of_mem _ (mem_merase h).1, (mem_merase h).2⟩

theorem mem_mset_of_keys_nodup : ∀ {m : List (Nat × Nat)} {k v : Nat} {p : Nat × Nat},
    (m.map Prod.fst).Nodup → p ∈ mset m k v → p = (k, v) ∨ (p ∈ m ∧ p.1 ≠ k)
  | [], k, v, p, _, h => by
    simp only [mset, List.mem_singleton] at h
    exact Or.inl h
  | (a, b) :: m, k, v, p, hnd, h => by
    have hnd' : (m.map Prod.fst).Nodup := (List.nodup_cons.mp (by simpa using hnd)).2
    have hna : a ∉ m.map Prod.fst := (List.nodup_cons.mp (by simpa using hnd)).1
    by_cases hp : a = k
    · subst hp
      simp only [mset, reduceIte, List.mem_cons] at h
      rcases h with h | h
      · exact Or.inl h
      · refine Or.inr ⟨List.mem_cons_of_mem _ h, ?_⟩
        intro hpk
        exact hna (by rw [← hpk]; exact List.mem_map_of_mem Prod.fst h)
    · simp only [mset, hp, reduceIte, List.mem_cons] at h
      rcases h with h | h
      · exact Or.inr ⟨by simp [h], by simp [h, hp]⟩
      · rcases mem_mset_of_keys_nodup hnd' h with h' | h'
        · exact Or.inl h'
        · exact Or.inr ⟨List.mem_cons_of_mem _ h'.1, h'.2⟩

theorem mem_keys_mset : ∀ {m : List (Nat × Nat)} {k v a : Nat},
    a ∈ (mset m k v).map Prod.fst → a = k ∨ a ∈ m.map Prod.fst
  | [], k, v, a, h => by simpa [mset] using h
  | (q₁, q₂) :: m, k, v, a, h => by
    by_cases hp : q₁ = k
    · simp only [mset, hp, reduceIte] at h
      simpa [hp] using h
    · simp only [mset, hp, reduceIte, List.map_cons, List.mem_cons] at h
      rcases h with h | h
      · exact Or.inr (by simp [h])
      · rcases mem_keys_mset h with h' | h'
        · exact Or.inl h'
        · exact Or.inr (by simp [h'])

theorem keys_nodup_mset : ∀ {m : List (Nat × Nat)} (k v : Nat),
    (m.map Prod.fst).Nodup → ((mset m k v).map Prod.fst).Nodup
  | [], k, v, _ => by simp [mset]
  | (a, b) :: m, k, v, hnd => by
    have hnd' : (m.map Prod.fst).Nodup := (List.nodup_cons.mp (by simpa using hnd)).2
    have hna : a ∉ m.map Prod.fst := (List.nodup_cons.mp (by simpa using hnd)).1
    by_cases hp : a = k
    · subst hp
      simp only [mset, reduceIte, List.map_cons]
      exact List.nodup_cons.mpr ⟨by simpa using hna, hnd'⟩
    · simp only [mset, hp, reduceIte, List.map_cons]
      refine List.nodup_cons.mpr ⟨?_, keys_nodup_mset k v hnd'⟩
      intro hmem
      rcases mem_keys_mset hmem with h' | h'
      · exact hp h'
      · exact hna h'

theorem mem_keys_merase : ∀ {m : List (Nat × Nat)} {k a : Nat},
    a ∈ (merase m k).map Prod.fst → a ∈ m.map Prod.fst
  | [], _, _, h => by simp [merase] at h
  | (q₁, q₂) :: m, k, a, h => by
    by_cases hp : q₁ = k
    · simp only [merase, hp, reduceIte] at h
      exact List.mem_cons_of_mem _ (mem_keys_merase h)
    · simp only [merase, hp, reduceIte, List.map_cons, List.mem_cons] at h
      rcases h with h | h
      · simp [h]
      · exact List.mem_cons_of_mem _ (mem_keys_merase h)

theorem keys_nodup_merase : ∀ {m : List (Nat × Nat)} (k : Nat),
    (m.map Prod.fst).Nodup → ((merase m k).map Prod.fst).Nodup
  | [], _, _ => by simp [merase]
  | (a, b) :: m, k, hnd => by
    have hnd' : (m.map Prod.fst).Nodup := (List.nodup_cons.mp (by simpa using hnd)).2
    have hna : a ∉ m.map Prod.fst := (List.nodup_cons.mp (by simpa using hnd)).1
    by_cases hp : a = k
    · simpa [merase, hp] using keys_nodup_merase k hnd'
    · simp only [merase, hp, reduceIte, List.map_cons]
      exact List.nodup_cons.mpr
        ⟨fun hmem => hna (mem_keys_merase hmem), keys_nodup_merase k hnd'⟩

theorem mlookup_eq_of_mem_of_nodup : ∀ {m : List (Nat × Nat)} {p : Nat × Nat},
    (m.map Prod.fst).Nodup → p ∈ m → mlookup m p.1 = some p.2
  | [], _, _, h => by simp at h
  | (a, b) :: m, p, hnd, h => by
    have hnd' : (m.map Prod.fst).Nodup := (List.nodup_cons.mp (by simpa using hnd)).2
    have hna : a ∉ m.map Prod.fst := (List.nodup_cons.mp (by simpa using hnd)).1
    rcases List.mem_cons.mp h with h | h
    · simp [h, mlookup]
    · have hne : a ≠ p.1 := by
        intro hh
        exact hna (hh ▸ List.mem_map_of_mem Prod.fst h)
      simpa [mlookup, hne] using mlookup_eq_of_mem_of_nodup hnd' h

/-- Shallow embedding of `ComponentContainer<Component>`: the dense component
sequence, the parallel entity sequence, and the entity-to-index map. -/
structure Container (C : Type) where
  components : List C
  entities : List Nat
  map : List (Nat × Nat)
deriving DecidableEq

/-- The freshly constructed, empty container. -/
def Container.empty {C : Type} : Container C := ⟨[], [], []⟩

namespace Container

variable {C : Type}

/-- `size()`: number of stored components. -/
def size (s : Container C) : Nat := s.components.length

/-- `has(e)`: whether the entity-to-index map holds an entry for `e`. -/
def has (s : Container C) (e : Nat) : Bool := (mlookup s.map e).isSome

/-- `get(e)`: returns the component stored at the mapped index; `none` models
the `assert` fault on a missing entity (and an out-of-range mapped index,
which is out-of-bounds vector access in the source). -/
def get (s : Container C) (e : Nat) : Option C :=
  match mlookup s.map e with
  | none => none
  | some i => s.components[i]?

/-- `insert(e, c, check_for_duplicates)`: when checking is on and `e` is
already mapped the `assert` fires before any mutation — modelled as the
unchanged state paired with fault flag `true`.  Otherwise the map entry is
set to the current size and the component and entity are appended. -/
def insert (s : Container C) (e : Nat) (c : C) (check_for_duplicates : Bool) :
    Container C × Bool :=
  if check_for_duplicates && s.has e then (s, true)
  else ({ components := s.components ++ [c],
          entities := s.entities ++ [e],
          map := mset s.map e s.components.length }, false)

/-- `remove(e)`: no-op when `e` is unmapped; otherwise the last record is
moved into `e`'s slot, the moved entity's map entry is repointed, `e`'s map
entry is erased and both sequences shrink by one.  The branch where the map
holds an entry but a sequence is empty is `back()` on an empty vector in the
source (undefined there, unreachable for well-formed containers); it is
modelled as a no-op. -/
def remove (s : Container C) (e : Nat) : Container C :=
  match mlookup s.map e with
  | none => s
  | some i =>
    match s.components.getLast?, s.entities.getLast? with
    | some cb, some eb =>
      { components := (s.components.set i cb).dropLast,
        entities := (s.entities.set i eb).dropLast,
        map := merase (mset s.map eb i) e }
    | _, _ => s

/-- `clear()`: empties all three structures. -/
def clear (_s : Container C) : Container C := Container.empty

end Container

/-- Insertion of an entity into a list already sorted by the boolean
comparator, keeping it sorted. -/
def orderedInsertB (le : Nat → Nat → Bool) (e : Nat) : List Nat → List Nat
  | [] => [e]
  | x :: xs => if le e x then e :: x :: xs else x :: orderedInsertB le e xs

/-- Sorting by a boolean comparator, the model of `std::sort` used by
`ComponentContainer::sort`: it produces a permutation of the input that is
sorted whenever the comparator is total and transitive. -/
def insertionSortB (le : Nat → Nat → Bool) : List Nat → List Nat
  | [] => []
  | x :: xs => orderedInsertB le x (insertionSortB le xs)

/-- The map-rebuilding loop at the end of `ComponentContainer::sort`:
`for i: map[entities[i]] = i`, starting at index `i₀` over the already
updated map `m`. -/
def buildMap : List Nat → Nat → List (Nat × Nat) → List (Nat × Nat)
  | [], _, m => m
  | e :: es, i, m => buildMap es (i + 1) (mset m e i)

namespace Container

variable {C : Type}

/-- The `std::transform` loop of `ComponentContainer::sort`: reads the
component of each listed entity through `get` (still on the old map);
`none` models the `assert` fault inside `get` on a missing entity. -/
def getsAll (s : Container C) : List Nat → Option (List C)
  | [] => some []
  | e :: es =>
    match s.get e, s.getsAll es with
    | some c, some cs => some (c :: cs)
    | _, _ => none

/-- `sort(comparisonFunction)`: sorts the entity list, rebuilds the dense
component sequence by looking each entity up through the old map, and then
rebuilds the map from the new positions.  The fault flag is `true` when a
`get` inside the rebuild asserts (unreachable for well-formed containers). -/
def sort (s : Container C) (le : Nat → Nat → Bool) : Container C × Bool :=
  match s.getsAll (insertionSortB le s.entities) with
  | some cs => ({ components := cs,
                  entities := insertionSortB le s.entities,
                  map := buildMap (insertionSortB le s.entities) 0 s.map }, false)
  | none => (s, true)

end Container

/-- One public mutating operation on a container, as offered by the source:
checked insertion (`insert` / `emplace`), duplicate-allowing insertion
(`emplace_with_duplicates`), `remove`, `clear` and `sort`. -/
inductive Op (C : Type) where
  | ins (e : Nat) (c : C)
  | insDup (e : Nat) (c : C)
  | rem (e : Nat)
  | clr
  | srt (le : Nat → Nat → Bool)

/-- Whether an operation checks for duplicates (everything except
`emplace_with_duplicates`). -/
def Op.checksDuplicates {C : Type} : Op C → Bool
  | .insDup _ _ => false
  | _ => true

/-- Apply one operation to a container.  Faulting operations (an `assert`
firing) leave the state unchanged, since every `assert` in the source
precedes all mutation. -/
def applyOp {C : Type} (s : Container C) : Op C → Container C
  | .ins e c => (s.insert e c true).1
  | .insDup e c => (s.insert e c false).1
  | .rem e => s.remove e
  | .clr => s.clear
  | .srt le => (s.sort le).1

/-- Run a sequence of operations from a starting container state. -/
def runOps {C : Type} (s : Container C) (ops : List (Op C)) : Container C :=
  ops.foldl applyOp s

/-- Width of `unsigned int`, the type of `Entity::id_count` (32 bits). -/
def uintSize : Nat := 2 ^ 32

/-- Value of the static counter `id_count` after `n` calls of `next_id`.
It starts at 1 and each call post-increments it, wrapping as `unsigned
int` arithmetic does. -/
def idCount : Nat → Nat
  | 0 => 1
  | n + 1 => (idCount n + 1) % uintSize

/-- The id returned by the `(n+1)`-th entity construction: `next_id`
returns the counter value before the increment. -/
def nthId (n : Nat) : Nat := idCount n

/-- `ContainerInterface::remove_all_components_of(e)`: calls `remove(e)` on
every container in the registry singleton list, in order. -/
def remove_all_components_of {C : Type} (regs : List (Container C)) (e : Nat) :
    List (Container C) :=
  regs.map fun r => r.remove e

/-- Well-formedness of a container, the configuration every sequence of
duplicate-checked operations maintains: the two parallel sequences have
equal length, every map entry points at a slot holding its key, every slot's
entity is mapped back to that slot, and the map holds no repeated keys. -/
def WF {C : Type} (s : Container C) : Prop :=
  s.components.length = s.entities.length ∧
  (∀ p ∈ s.map, s.entities[p.2]? = some p.1) ∧
  (∀ i, ∀ h : i < s.entities.length, mlookup s.map (s.entities.get ⟨i, h⟩) = some i) ∧
  (s.map.map Prod.fst).Nodup

/-- Density: the parallel sequences of a container have equal length. -/
def Dense {C : Type} (s : Container C) : Prop :=
  s.components.length = s.entities.length

instance {C : Type} [DecidableEq C] (s : Container C) : Decidable (WF s) := by
  unfold WF
  infer_instance

instance {C : Type} (s : Container C) : Decidable (Dense s) := by
  unfold Dense
  infer_instance

section WFLemmas

variable {C : Type} {s : Container C}

theorem WF.length_eq (h : WF s) : s.components.length = s.entities.length := h.1

theorem WF.keys_nodup (h : WF s) : (s.map.map Prod.fst).Nodup := h.2.2.2

theorem WF.entities_of_mlookup (h : WF s) {e i : Nat}
    (hm : mlookup s.map e = some i) : s.entities[i]? = some e :=
  h.2.1 (e, i) (mlookup_mem hm)

theorem WF.lt_of_mlookup (h : WF s) {e i : Nat}
    (hm : mlookup s.map e = some i) : i < s.entities.length := by
  have := h.entities_of_mlookup hm
  exact (List.getElem?_eq_some_iff.mp this).1

theorem WF.mlookup_of_entities (h : WF s) {e i : Nat}
    (he : s.entities[i]? = some e) : mlookup s.map e = some i := by
  obtain ⟨hlt, heq⟩ := List.getElem?_eq_some_iff.mp he
  have := h.2.2.1 i hlt
  rwa [List.get_eq_getElem, heq] at this

theorem WF.entities_inj (h : WF s) {i j e : Nat}
    (hi : s.entities[i]? = some e) (hj : s.entities[j]? = some e) : i = j := by
  have h1 := h.mlookup_of_entities hi
  have h2 := h.mlookup_of_entities hj
  rw [h1] at h2
  exact (Option.some.injEq _ _).mp h2

theorem WF.entities_ne_of_mlookup_none (h : WF s) {e i : Nat}
    (hm : mlookup s.map e = none) : s.entities[i]? ≠ some e := by
  intro he
  rw [h.mlookup_of_entities he] at hm
  cases hm

theorem WF_intro (h1 : s.components.length = s.entities.length)
    (h2 : ∀ p ∈ s.map, s.entities[p.2]? = some p.1)
    (h3 : ∀ i e, s.entities[i]? = some e → mlookup s.map e = some i)
    (h4 : (s.map.map Prod.fst).Nodup) : WF s := by
  refine ⟨h1, h2, ?_, h4⟩
  intro i h
  apply h3
  rw [List.get_eq_getElem]
  exact List.getElem?_eq_getElem h

theorem WF.entities_nodup (h : WF s) : s.entities.Nodup := by
  rw [List.nodup_iff_getElem?_ne_getElem?]
  intro i j hij hj heq
  have hi : i < s.entities.length := Nat.lt_trans hij hj
  have he : s.entities[i]? = some (s.entities.get ⟨i, hi⟩) := by
    rw [List.get_eq_getElem]
    exact List.getElem?_eq_getElem hi
  rw [he] at heq
  exact Nat.ne_of_lt hij (h.entities_inj he heq.symm)

theorem WF_empty : WF (Container.empty : Container C) := by
  refine WF_intro rfl ?_ ?_ ?_ <;> simp [Container.empty]

end WFLemmas

section OpLemmas

variable {C : Type} {s : Container C}

theorem Container.has_iff_mlookup {e : Nat} :
    s.has e = true ↔ ∃ i, mlookup s.map e = some i := by
  unfold Container.has
  cases mlookup s.map e <;> simp

theorem Container.has_eq_false_iff {e : Nat} :
    s.has e = false ↔ mlookup s.map e = none := by
  unfold Container.has
  cases mlookup s.map e <;> simp

/-- Successful `insert`: when the entity is unmapped (or checking is off),
the component and entity are appended and the map entry set. -/
theorem Container.insert_of_not_has {e : Nat} {c : C} {b : Bool}
    (h : s.has e = false) :
    s.insert e c b =
      ({ components := s.components ++ [c],
         entities := s.entities ++ [e],
         map := mset s.map e s.components.length }, false) := by
  unfold Container.insert
  rw [h]
  simp

/-- `remove` on an unmapped entity is the identity. -/
theorem Container.remove_of_not_has {e : Nat} (h : s.has e = false) :
    s.remove e = s := by
  unfold Container.remove
  rw [Container.has_eq_false_iff.mp h]

/-- The map produced by `remove` in the present case, described entrywise. -/
theorem mlookup_remove_map (m : List (Nat × Nat)) (e eb i k : Nat) :
    mlookup (merase (mset m eb i) e) k =
      if k = e then none else if k = eb then some i else mlookup m k := by
  by_cases h1 : k = e
  · rw [if_pos h1, h1, mlookup_merase_self]
  · rw [if_neg h1, mlookup_merase_ne _ _ _ h1]
    by_cases h2 : k = eb
    · rw [if_pos h2, h2, mlookup_mset_self]
    · rw [if_neg h2, mlookup_mset_ne _ _ _ _ h2]

/-- `remove` on a mapped entity of a well-formed container takes the
swap-with-last branch. -/
theorem Container.remove_spec (hWF : WF s) {e i : Nat}
    (hm : mlookup s.map e = some i) :
    ∃ cb eb, s.components.getLast? = some cb ∧ s.entities.getLast? = some eb ∧
      s.remove e =
        { components := (s.components.set i cb).dropLast,
          entities := (s.entities.set i eb).dropLast,
          map := merase (mset s.map eb i) e } := by
  have hlt : i < s.entities.length := hWF.lt_of_mlookup hm
  have hne : s.entities ≠ [] := by
    intro hnil
    rw [hnil] at hlt
    exact Nat.not_lt_zero i hlt
  have hnec : s.components ≠ [] := by
    intro hnil
    have := hWF.length_eq
    rw [hnil] at this
    rw [← this] at hlt
    exact Nat.not_lt_zero i hlt
  obtain ⟨cb, hcb⟩ := Option.isSome_iff_exists.mp (List.getLast?_isSome.mpr hnec)
  obtain ⟨eb, heb⟩ := Option.isSome_iff_exists.mp (List.getLast?_isSome.mpr hne)
  refine ⟨cb, eb, hcb, heb, ?_⟩
  unfold Container.remove
  rw [hm, hcb, heb]

/-- After `remove(e)` the entity `e` is never mapped. -/
theorem Container.has_remove_self (hWF : WF s) (e : Nat) :
    (s.remove e).has e = false := by
  by_cases h : s.has e = true
  · obtain ⟨i, hm⟩ := Container.has_iff_mlookup.mp h
    obtain ⟨cb, eb, _, _, hrem⟩ := Container.remove_spec hWF hm
    rw [Container.has_eq_false_iff, hrem]
    rw [mlookup_remove_map, if_pos rfl]
  · have h' : s.has e = false := by
      cases hh : s.has e
      · rfl
      · exact absurd hh h
    rw [Container.remove_of_not_has h']
    exact h'

/-- `insert` with checking on a mapped entity faults and returns the
unchanged state. -/
theorem Container.insert_of_has {e : Nat} {c : C} (h : s.has e = true) :
    s.insert e c true = (s, true) := by
  unfold Container.insert
  rw [h]
  simp

theorem WF_insert_not_has {e : Nat} {c : C} {b : Bool} (hWF : WF s)
    (h : s.has e = false) : WF (s.insert e c b).1 := by
  rw [Container.insert_of_not_has h]
  have hm : mlookup s.map e = none := Container.has_eq_false_iff.mp h
  have hlen := hWF.length_eq
  refine WF_intro (by simp [hlen]) ?_ ?_ ?_
  · intro p hp
    rw [mset_of_mlookup_none _ hm] at hp
    rcases List.mem_append.mp hp with hp | hp
    · have := hWF.2.1 p hp
      have hlt : p.2 < s.entities.length := (List.getElem?_eq_some_iff.mp this).1
      simpa [List.getElem?_append_left hlt] using this
    · have : p = (e, s.components.length) := by simpa using hp
      rw [this, hlen]
      exact List.getElem?_concat_length _ _
  · intro i x hx
    rcases Nat.lt_or_ge i s.entities.length with hi | hi
    · rw [List.getElem?_append_left hi] at hx
      have hxe : x ≠ e := by
        intro hh
        exact hWF.entities_ne_of_mlookup_none hm (hh ▸ hx)
      rw [mlookup_mset_ne _ _ _ _ hxe]
      exact hWF.mlookup_of_entities hx
    · have hi' : i = s.entities.length := by
        have := (List.getElem?_eq_some_iff.mp hx).1
        simp only [List.length_append, List.length_cons, List.length_nil] at this
        omega
      subst hi'
      have : x = e := by
        have := List.getElem?_concat_length s.entities e
        rw [this] at hx
        simpa using hx.symm
      subst this
      rw [mlookup_mset_self, hlen]
  · rw [mset_of_mlookup_none _ hm, List.map_append]
    simp only [List.map_cons, List.map_nil]
    rw [List.nodup_append]
    exact ⟨hWF.keys_nodup, List.nodup_singleton e,
      by simpa using fun hmem => not_mem_keys_of_mlookup_none hm hmem⟩

theorem WF_insert_checked {e : Nat} {c : C} (hWF : WF s) :
    WF (s.insert e c true).1 := by
  cases hh : s.has e
  · exact WF_insert_not_has hWF hh
  · rw [Container.insert_of_has hh]
    exact hWF

theorem WF_clear : WF (s.clear) := WF_empty

theorem WF_remove (e : Nat) (hWF : WF s) : WF (s.remove e) := by
  cases hh : s.has e
  · rw [Container.remove_of_not_has hh]
    exact hWF
  · obtain ⟨i, hm⟩ := Container.has_iff_mlookup.mp hh
    obtain ⟨cb, eb, hcb, heb, hrem⟩ := Container.remove_spec hWF hm
    set n := s.entities.length with hn
    have hlen := hWF.length_eq
    have hlt : i < n := hWF.lt_of_mlookup hm
    have hpos : 0 < n := Nat.lt_of_le_of_lt (Nat.zero_le i) hlt
    have hie : s.entities[i]? = some e := hWF.entities_of_mlookup hm
    have hebe : s.entities[n - 1]? = some eb := by
      rw [List.getLast?_eq_getElem?] at heb
      exact heb
    rw [hrem]
    refine WF_intro (by simp [hlen]) ?_ ?_ ?_
    · intro p hp
      obtain ⟨hp, hpe⟩ := mem_merase hp
      rcases mem_mset_of_keys_nodup hWF.keys_nodup hp with hp | ⟨hp, hpeb⟩
      · have hpeb : p = (eb, i) := hp
        have hene : e ≠ eb := fun hh => hpe (by rw [hpeb, hh])
        have hine : i ≠ n - 1 := by
          intro hh
          rw [hh, hebe] at hie
          have hbe : eb = e := by simpa using hie
          exact hene hbe.symm
        have hilt : i < n - 1 := by omega
        rw [hpeb]
        simp only [List.getElem?_dropLast, List.length_set]
        rw [if_pos (by rw [← hn]; omega)]
        simp [List.getElem?_set, hlt, ← hn]
      · have hj := hWF.2.1 p hp
        have hjlt : p.2 < n := (List.getElem?_eq_some_iff.mp hj).1
        have hji : p.2 ≠ i := by
          intro hh
          rw [hh, hie] at hj
          have hpe' : p.1 = e := by simpa using hj.symm
          exact hpe hpe'
        have hjn : p.2 ≠ n - 1 := by
          intro hh
          rw [hh, hebe] at hj
          have hpeb' : p.1 = eb := by simpa using hj.symm
          exact hpeb hpeb'
        simp only [List.getElem?_dropLast, List.length_set]
        rw [if_pos (by rw [← hn]; omega)]
        rw [List.getElem?_set_ne (fun hh => hji hh.symm)]
        exact hj
    · intro j x hx
      have hjlt : j < n - 1 := by
        have := (List.getElem?_eq_some_iff.mp hx).1
        simpa [← hn] using this
      simp only [List.getElem?_dropLast, List.length_set, ← hn, if_pos hjlt] at hx
      rw [mlookup_remove_map]
      by_cases hji : i = j
      · subst hji
        rw [List.getElem?_set_self (by omega)] at hx
        have hxeb : x = eb := by simpa using hx.symm
        subst hxeb
        have hxne : x ≠ e := by
          intro hh
          have hb' : s.entities[n - 1]? = some e := by rw [← hh]; exact hebe
          have : i = n - 1 := hWF.entities_inj hie hb'
          omega
        rw [if_neg hxne, if_pos rfl]
      · rw [List.getElem?_set_ne hji] at hx
        have hxne : x ≠ e := by
          intro hh
          have hx' : s.entities[j]? = some e := by rw [← hh]; exact hx
          exact hji (hWF.entities_inj hie hx')
        have hxneb : x ≠ eb := by
          intro hh
          have hx' : s.entities[j]? = some eb := by rw [← hh]; exact hx
          have : j = n - 1 := hWF.entities_inj hx' hebe
          omega
        rw [if_neg hxne, if_neg hxneb]
        exact hWF.mlookup_of_entities hx
    · exact keys_nodup_merase _ (keys_nodup_mset _ _ hWF.keys_nodup)

end OpLemmas

section SortLemmas

variable {C : Type} {s : Container C}

theorem perm_orderedInsertB (le : Nat → Nat → Bool) (e : Nat) :
    ∀ l : List Nat, List.Perm (orderedInsertB le e l) (e :: l)
  | [] => List.Perm.refl _
  | x :: xs => by
    unfold orderedInsertB
    by_cases h : le e x
    · rw [if_pos h]
    · rw [if_neg h]
      exact ((perm_orderedInsertB le e xs).cons x).trans (List.Perm.swap e x xs)

theorem perm_insertionSortB (le : Nat → Nat → Bool) :
    ∀ l : List Nat, List.Perm (insertionSortB le l) l
  | [] => List.Perm.refl _
  | x :: xs =>
    (perm_orderedInsertB le x (insertionSortB le xs)).trans
      ((perm_insertionSortB le xs).cons x)

theorem pairwise_orderedInsertB {le : Nat → Nat → Bool}
    (htot : ∀ a b, le a b = true ∨ le b a = true)
    (htrans : ∀ a b c, le a b = true → le b c = true → le a c = true)
    (e : Nat) : ∀ {l : List Nat}, l.Pairwise (fun a b => le a b = true) →
    (orderedInsertB le e l).Pairwise (fun a b => le a b = true)
  | [], _ => by simp [orderedInsertB]
  | x :: xs, h => by
    obtain ⟨hx, hxs⟩ := List.pairwise_cons.mp h
    by_cases hle : le e x
    · simp only [orderedInsertB, hle, reduceIte]
      refine List.pairwise_cons.mpr ⟨?_, h⟩
      intro b hb
      rcases List.mem_cons.mp hb with hb | hb
      · rw [hb]
        exact hle
      · exact htrans e x b hle (hx b hb)
    · simp only [orderedInsertB, hle, reduceIte]
      refine List.pairwise_cons.mpr ⟨?_, pairwise_orderedInsertB htot htrans e hxs⟩
      intro b hb
      rcases List.mem_cons.mp ((perm_orderedInsertB le e xs).mem_iff.mp hb) with hb | hb
      · rw [hb]
        rcases htot e x with h' | h'
        · exact absurd h' hle
        · exact h'
      · exact hx b hb

theorem pairwise_insertionSortB {le : Nat → Nat → Bool}
    (htot : ∀ a b, le a b = true ∨ le b a = true)
    (htrans : ∀ a b c, le a b = true → le b c = true → le a c = true) :
    ∀ l : List Nat, (insertionSortB le l).Pairwise (fun a b => le a b = true)
  | [] => by simp [insertionSortB]
  | x :: xs =>
    pairwise_orderedInsertB htot htrans x (pairwise_insertionSortB htot htrans xs)

theorem getsAll_length : ∀ {l : List Nat} {cs : List C},
    s.getsAll l = some cs → cs.length = l.length
  | [], cs, h => by
    simp only [Container.getsAll, Option.some.injEq] at h
    simp [← h]
  | e :: es, cs, h => by
    unfold Container.getsAll at h
    cases hg : s.get e with
    | none => rw [hg] at h; cases h
    | some c =>
      cases hr : s.getsAll es with
      | none => rw [hg, hr] at h; cases h
      | some cs' =>
        rw [hg, hr] at h
        simp only [Option.some.injEq] at h
        rw [← h]
        simpa using getsAll_length hr

theorem getsAll_getElem : ∀ {l : List Nat} {cs : List C}, s.getsAll l = some cs →
    ∀ {j x : Nat}, l[j]? = some x → cs[j]? = s.get x
  | [], cs, h, j, x, hx => by simp at hx
  | e :: es, cs, h, j, x, hx => by
    unfold Container.getsAll at h
    cases hg : s.get e with
    | none => rw [hg] at h; cases h
    | some c =>
      cases hr : s.getsAll es with
      | none => rw [hg, hr] at h; cases h
      | some cs' =>
        rw [hg, hr] at h
        simp only [Option.some.injEq] at h
        rw [← h]
        cases j with
        | zero =>
          have hex : e = x := by simpa using hx
          subst hex
          simpa using hg.symm
        | succ j' =>
          have hx' : es[j']? = some x := by simpa using hx
          simpa using getsAll_getElem hr hx'

theorem getsAll_isSome : ∀ {l : List Nat},
    (∀ e ∈ l, (s.get e).isSome = true) → ∃ cs : List C, s.getsAll l = some cs
  | [], _ => ⟨[], rfl⟩
  | e :: es, h => by
    obtain ⟨c, hc⟩ := Option.isSome_iff_exists.mp (h e (List.mem_cons_self _ _))
    obtain ⟨cs, hcs⟩ := getsAll_isSome fun x hx => h x (List.mem_cons_of_mem _ hx)
    refine ⟨c :: cs, ?_⟩
    unfold Container.getsAll
    rw [hc, hcs]

theorem mem_mset : ∀ {m : List (Nat × Nat)} {k v : Nat} {p : Nat × Nat},
    p ∈ mset m k v → p = (k, v) ∨ p ∈ m
  | [], k, v, p, h => by
    simp only [mset, List.mem_singleton] at h
    exact Or.inl h
  | (a, b) :: m, k, v, p, h => by
    by_cases hp : a = k
    · simp only [mset, hp, reduceIte, List.mem_cons] at h
      rcases h with h | h
      · exact Or.inl h
      · exact Or.inr (List.mem_cons_of_mem _ h)
    · simp only [mset, hp, reduceIte, List.mem_cons] at h
      rcases h with h | h
      · exact Or.inr (by simp [h])
      · rcases mem_mset h with h' | h'
        · exact Or.inl h'
        · exact Or.inr (List.mem_cons_of_mem _ h')

theorem mlookup_buildMap_not_mem : ∀ {l : List Nat} (i : Nat) (m : List (Nat × Nat))
    {k : Nat}, k ∉ l → mlookup (buildMap l i m) k = mlookup m k
  | [], _, _, _, _ => rfl
  | e :: es, i, m, k, h => by
    have hk : k ≠ e := fun hh => h (by simp [hh])
    have h' : k ∉ es := fun hh => h (List.mem_cons_of_mem _ hh)
    rw [buildMap, mlookup_buildMap_not_mem (i + 1) _ h', mlookup_mset_ne _ _ _ _ hk]

theorem mlookup_buildMap_getElem : ∀ {l : List Nat} (i : Nat) (m : List (Nat × Nat))
    {j k : Nat}, l.Nodup → l[j]? = some k →
    mlookup (buildMap l i m) k = some (i + j)
  | [], _, _, j, k, _, h => by simp at h
  | e :: es, i, m, j, k, hnd, h => by
    obtain ⟨hne, hnd'⟩ := List.nodup_cons.mp hnd
    cases j with
    | zero =>
      have hek : e = k := by simpa using h
      subst hek
      rw [buildMap, mlookup_buildMap_not_mem _ _ hne, mlookup_mset_self]
      simp
    | succ j' =>
      have h' : es[j']? = some k := by simpa using h
      rw [buildMap, mlookup_buildMap_getElem (i + 1) _ hnd' h']
      congr 1
      omega

theorem mem_buildMap : ∀ {l : List Nat} {i : Nat} {m : List (Nat × Nat)}
    {p : Nat × Nat}, p ∈ buildMap l i m → p.1 ∈ l ∨ p ∈ m
  | [], _, _, _, h => Or.inr h
  | e :: es, i, m, p, h => by
    rw [buildMap] at h
    rcases mem_buildMap h with h' | h'
    · exact Or.inl (List.mem_cons_of_mem _ h')
    · rcases mem_mset h' with h'' | h''
      · exact Or.inl (by simp [h''])
      · exact Or.inr h''

theorem keys_nodup_buildMap : ∀ {l : List Nat} {i : Nat} {m : List (Nat × Nat)},
    (m.map Prod.fst).Nodup → ((buildMap l i m).map Prod.fst).Nodup
  | [], _, _, h => h
  | e :: es, i, m, h => by
    rw [buildMap]
    exact keys_nodup_buildMap (keys_nodup_mset _ _ h)

/-- Under well-formedness `sort` never faults: it returns the sorted entity
list with the components read back through the old map and the rebuilt map. -/
theorem Container.sort_eq (hWF : WF s) (le : Nat → Nat → Bool) :
    ∃ cs, s.getsAll (insertionSortB le s.entities) = some cs ∧
      s.sort le = ({ components := cs,
                     entities := insertionSortB le s.entities,
                     map := buildMap (insertionSortB le s.entities) 0 s.map }, false) := by
  have hsome : ∀ e ∈ insertionSortB le s.entities, (s.get e).isSome = true := by
    intro e he
    have he' : e ∈ s.entities := (perm_insertionSortB le s.entities).mem_iff.mp he
    obtain ⟨i, hi⟩ := List.getElem?_of_mem he'
    have hm : mlookup s.map e = some i := hWF.mlookup_of_entities hi
    have hlt : i < s.components.length := by
      rw [hWF.length_eq]
      exact hWF.lt_of_mlookup hm
    unfold Container.get
    rw [hm]
    simp [List.getElem?_eq_getElem hlt]
  obtain ⟨cs, hcs⟩ := getsAll_isSome hsome
  refine ⟨cs, hcs, ?_⟩
  unfold Container.sort
  rw [hcs]

theorem mem_of_getElem_some {α : Type} {l : List α} {i : Nat} {a : α}
    (h : l[i]? = some a) : a ∈ l := by
  obtain ⟨hlt, heq⟩ := List.getElem?_eq_some_iff.mp h
  exact heq ▸ List.getElem_mem hlt

theorem WF_sort (hWF : WF s) (le : Nat → Nat → Bool) : WF (s.sort le).1 := by
  obtain ⟨cs, hcs, hsort⟩ := Container.sort_eq hWF le
  have hperm := perm_insertionSortB le s.entities
  have hnd : (insertionSortB le s.entities).Nodup :=
    hperm.nodup_iff.mpr hWF.entities_nodup
  rw [hsort]
  refine WF_intro ?_ ?_ ?_ ?_
  · exact getsAll_length hcs
  · intro p hp
    have hmem : p.1 ∈ insertionSortB le s.entities := by
      rcases mem_buildMap hp with h' | h'
      · exact h'
      · exact hperm.mem_iff.mpr (mem_of_getElem_some (hWF.2.1 p h'))
    obtain ⟨j, hj⟩ := List.getElem?_of_mem hmem
    have h1 : mlookup (buildMap (insertionSortB le s.entities) 0 s.map) p.1 =
        some j := by
      simpa using mlookup_buildMap_getElem 0 s.map hnd hj
    have h2 : mlookup (buildMap (insertionSortB le s.entities) 0 s.map) p.1 =
        some p.2 :=
      mlookup_eq_of_mem_of_nodup (keys_nodup_buildMap hWF.keys_nodup) hp
    have : p.2 = j := by
      rw [h1] at h2
      simpa using h2.symm
    rw [this]
    exact hj
  · intro j x hx
    simpa using mlookup_buildMap_getElem 0 s.map hnd hx
  · exact keys_nodup_buildMap hWF.keys_nodup

theorem Dense_insert {e : Nat} {c : C} {b : Bool} (hD : Dense s) :
    Dense (s.insert e c b).1 := by
  unfold Container.insert
  by_cases h : (b && s.has e) = true
  · rw [if_pos h]
    exact hD
  · rw [if_neg h]
    unfold Dense at hD ⊢
    simp [hD]

theorem Dense_remove {e : Nat} (hD : Dense s) : Dense (s.remove e) := by
  unfold Container.remove
  cases hm : mlookup s.map e with
  | none => exact hD
  | some i =>
    cases hcb : s.components.getLast? with
    | none => exact hD
    | some cb =>
      cases heb : s.entities.getLast? with
      | none => exact hD
      | some eb =>
        unfold Dense at hD ⊢
        simp [hD]

theorem Dense_clear : Dense (s.clear) := rfl

theorem Dense_sort {le : Nat → Nat → Bool} (hD : Dense s) : Dense (s.sort le).1 := by
  unfold Container.sort
  cases hg : s.getsAll (insertionSortB le s.entities) with
  | none => exact hD
  | some cs =>
    unfold Dense
    exact getsAll_length hg

theorem Dense_applyOp (hD : Dense s) (op : Op C) : Dense (applyOp s op) := by
  cases op with
  | ins e c => exact Dense_insert hD
  | insDup e c => exact Dense_insert hD
  | rem e => exact Dense_remove hD
  | clr => exact Dense_clear (s := s)
  | srt le => exact Dense_sort hD

theorem Dense_runOps : ∀ (ops : List (Op C)) {s : Container C}, Dense s →
    Dense (runOps s ops)
  | [], _, hD => hD
  | op :: ops, _, hD => Dense_runOps ops (Dense_applyOp hD op)

theorem WF_applyOp (hWF : WF s) (op : Op C)
    (hop : op.checksDuplicates = true) : WF (applyOp s op) := by
  cases op with
  | ins e c => exact WF_insert_checked hWF
  | insDup e c => cases hop
  | rem e => exact WF_remove e hWF
  | clr => exact WF_clear (s := s)
  | srt le => exact WF_sort hWF le

theorem WF_runOps : ∀ (ops : List (Op C)) {s : Container C},
    (∀ op ∈ ops, op.checksDuplicates = true) → WF s → WF (runOps s ops)
  | [], _, _, hWF => hWF
  | op :: ops, _, hops, hWF =>
    WF_runOps ops (fun o ho => hops o (List.mem_cons_of_mem _ ho))
      (WF_applyOp hWF op (hops op (List.mem_cons_self _ _)))

end SortLemmas

section GetLemmas

variable {C : Type} {s : Container C}

theorem Container.get_eq_of_mlookup {e i : Nat} (h : mlookup s.map e = some i) :
    s.get e = s.components[i]? := by
  unfold Container.get
  rw [h]

theorem Container.get_eq_none_of_mlookup {e : Nat} (h : mlookup s.map e = none) :
    s.get e = none := by
  unfold Container.get
  rw [h]

theorem Container.has_of_mlookup {e i : Nat} (h : mlookup s.map e = some i) :
    s.has e = true := by
  unfold Container.has
  rw [h]
  rfl

end GetLemmas

theorem idCount_eq (n : Nat) : idCount n = (1 + n) % uintSize := by
  induction n with
  | zero => rfl
  | succ n ih =>
    show (idCount n + 1) % uintSize = (1 + (n + 1)) % uintSize
    rw [ih, Nat.mod_add_mod, Nat.add_assoc]

/-- C1: removing a present entity `e` from a well-formed (duplicate-free)
container of `n` entities leaves `size()` equal to `n - 1`; every other
entity that was present still satisfies `has` and `get` returns its original
component value; and if `e` was not at the last slot, the entity formerly at
the last slot is now stored at `e`'s former slot index. -/
theorem swap_remove_correct {C : Type} {s : Container C} {e i : Nat}
    (hWF : WF s) (hm : mlookup s.map e = some i) :
    (s.remove e).size = s.size - 1 ∧
    (∀ x, x ≠ e → s.has x = true →
      (s.remove e).has x = true ∧ (s.remove e).get x = s.get x) ∧
    (i + 1 ≠ s.size → (s.remove e).entities[i]? = s.entities.getLast?) := by
  obtain ⟨cb, eb, hcb, heb, hrem⟩ := Container.remove_spec hWF hm
  have hlen := hWF.length_eq
  set n := s.entities.length with hn
  have hlt : i < n := hWF.lt_of_mlookup hm
  have hie : s.entities[i]? = some e := hWF.entities_of_mlookup hm
  have hebe : s.entities[n - 1]? = some eb := by
    rw [List.getLast?_eq_getElem?] at heb
    exact heb
  have hcbe : s.components[n - 1]? = some cb := by
    rw [List.getLast?_eq_getElem?, hlen] at hcb
    exact hcb
  refine ⟨?_, ?_, ?_⟩
  · rw [hrem]
    simp [Container.size]
  · intro x hxe hhas
    obtain ⟨j, hj⟩ := Container.has_iff_mlookup.mp hhas
    have hje : s.entities[j]? = some x := hWF.entities_of_mlookup hj
    have hjlt : j < n := hWF.lt_of_mlookup hj
    have hmap' : mlookup (s.remove e).map x =
        if x = eb then some i else some j := by
      rw [hrem]
      show mlookup (merase (mset s.map eb i) e) x = _
      rw [mlookup_remove_map, if_neg hxe]
      by_cases hxb : x = eb
      · rw [if_pos hxb, if_pos hxb]
      · rw [if_neg hxb, if_neg hxb, hj]
    by_cases hxb : x = eb
    · rw [if_pos hxb] at hmap'
      have hjn : j = n - 1 := by
        refine hWF.entities_inj hje ?_
        rw [hxb]
        exact hebe
      have hine : i ≠ n - 1 := by
        intro hh
        rw [hh, hebe] at hie
        have hbe : eb = e := by simpa using hie
        exact hxe (by rw [hxb, hbe])
      refine ⟨Container.has_of_mlookup hmap', ?_⟩
      rw [Container.get_eq_of_mlookup hmap', Container.get_eq_of_mlookup hj, hrem]
      show ((s.components.set i cb).dropLast)[i]? = s.components[j]?
      rw [List.getElem?_dropLast, List.length_set,
        if_pos (by omega : i < s.components.length - 1),
        List.getElem?_set_self (by omega : i < s.components.length), hjn, hcbe]
    · rw [if_neg hxb] at hmap'
      have hji : j ≠ i := by
        intro hh
        rw [hh, hie] at hje
        have hex : e = x := by simpa using hje
        exact hxe hex.symm
      have hjn : j ≠ n - 1 := by
        intro hh
        rw [hh, hebe] at hje
        have hbx : eb = x := by simpa using hje
        exact hxb hbx.symm
      refine ⟨Container.has_of_mlookup hmap', ?_⟩
      rw [Container.get_eq_of_mlookup hmap', Container.get_eq_of_mlookup hj, hrem]
      show ((s.components.set i cb).dropLast)[j]? = s.components[j]?
      rw [List.getElem?_dropLast, List.length_set,
        if_pos (by omega : j < s.components.length - 1),
        List.getElem?_set_ne (fun hh => hji hh.symm)]
  · intro hne
    have hine : i ≠ n - 1 := by
      unfold Container.size at hne
      omega
    rw [hrem, heb]
    show ((s.entities.set i eb).dropLast)[i]? = some eb
    rw [List.getElem?_dropLast, List.length_set,
      if_pos (by omega : i < s.entities.length - 1),
      List.getElem?_set_self (by omega : i < s.entities.length)]

/-- Concrete well-formed container used to witness `swap_remove_correct`. -/
def w1 : Container Nat := ⟨[10, 20, 30], [1, 2, 3], [(1, 0), (2, 1), (3, 2)]⟩

/-- Witness for C1 at a concrete three-entity container, removing entity 1
which sits at slot 0. -/
theorem swap_remove_correct_witness :
    WF w1 ∧ mlookup w1.map 1 = some 0 ∧
    (w1.remove 1).size = w1.size - 1 ∧
    ((w1.remove 1).has 3 = true ∧ (w1.remove 1).get 3 = w1.get 3) ∧
    (w1.remove 1).entities[0]? = w1.entities.getLast? := by
  have h := @swap_remove_correct Nat w1 1 0 (by decide) (by decide)
  exact ⟨by decide, by decide, h.1, h.2.1 3 (by decide) (by decide),
    h.2.2 (by decide)⟩

/-- C2: after every completed operation sequence, `size()` equals the length
of the component sequence and of the entity sequence, and every index in
`[0, size())` holds a record. -/
theorem density_invariant {C : Type} (ops : List (Op C)) :
    (runOps Container.empty ops).size = (runOps Container.empty ops).components.length ∧
    (runOps Container.empty ops).size = (runOps Container.empty ops).entities.length ∧
    (∀ i, i < (runOps Container.empty ops).size →
      ((runOps Container.empty ops).components[i]?).isSome = true ∧
      ((runOps Container.empty ops).entities[i]?).isSome = true) := by
  have hD : Dense (runOps (Container.empty : Container C) ops) :=
    Dense_runOps ops rfl
  refine ⟨rfl, hD, ?_⟩
  intro i hi
  have hic : i < (runOps (Container.empty : Container C) ops).components.length := hi
  have hie : i < (runOps (Container.empty : Container C) ops).entities.length := by
    unfold Dense at hD
    omega
  constructor
  · rw [List.getElem?_eq_getElem hic]
    rfl
  · rw [List.getElem?_eq_getElem hie]
    rfl

/-- Witness for C2 on a short concrete operation sequence. -/
theorem density_invariant_witness :
    0 < (runOps (Container.empty : Container Nat)
      [Op.ins 1 10, Op.ins 2 20, Op.rem 1]).size ∧
    ((runOps (Container.empty : Container Nat)
      [Op.ins 1 10, Op.ins 2 20, Op.rem 1]).components[0]?).isSome = true ∧
    ((runOps (Container.empty : Container Nat)
      [Op.ins 1 10, Op.ins 2 20, Op.rem 1]).entities[0]?).isSome = true := by
  have h := @density_invariant Nat [Op.ins 1 10, Op.ins 2 20, Op.rem 1]
  exact ⟨by decide, (h.2.2 0 (by decide)).1, (h.2.2 0 (by decide)).2⟩

/-- C3 as stated fails on the code: two duplicate-allowing insertions of
entity 1 leave it stored in two slots, and slot 0 holds entity 1 while the
map points entity 1 at slot 1, refuting both the round-trip law and the
at-most-one-slot property after this operation sequence. -/
theorem index_map_round_trip_counterexample :
    ¬ ((∀ e i, mlookup (runOps (Container.empty : Container Nat)
          [Op.insDup 1 10, Op.insDup 1 20]).map e = some i ↔
        (runOps (Container.empty : Container Nat)
          [Op.insDup 1 10, Op.insDup 1 20]).entities[i]? = some e) ∧
      (∀ i j e : Nat, (runOps (Container.empty : Container Nat)
          [Op.insDup 1 10, Op.insDup 1 20]).entities[i]? = some e →
        (runOps (Container.empty : Container Nat)
          [Op.insDup 1 10, Op.insDup 1 20]).entities[j]? = some e → i = j)) := by
  intro h
  have h01 : (0 : Nat) = 1 := h.2 0 1 1 (by decide) (by decide)
  exact absurd h01 (by decide)

/-- C3 (amended): after every sequence of operations that all check for
duplicates (no `emplace_with_duplicates`), the map entry for entity `e`
equals `i` iff the entity sequence at `i` equals `e`, and every entity
occupies at most one slot. -/
theorem index_map_round_trip_checked {C : Type} (ops : List (Op C))
    (hops : ∀ op ∈ ops, op.checksDuplicates = true) :
    (∀ e i, mlookup (runOps Container.empty ops).map e = some i ↔
      (runOps Container.empty ops).entities[i]? = some e) ∧
    (∀ i j e : Nat, (runOps Container.empty ops).entities[i]? = some e →
      (runOps Container.empty ops).entities[j]? = some e → i = j) := by
  have hWF : WF (runOps (Container.empty : Container C) ops) :=
    WF_runOps ops hops WF_empty
  exact ⟨fun e i => ⟨fun h => hWF.entities_of_mlookup h,
      fun h => hWF.mlookup_of_entities h⟩,
    fun i j e hi hj => hWF.entities_inj hi hj⟩

/-- Witness for the amended C3 on a concrete duplicate-checked sequence. -/
theorem index_map_round_trip_checked_witness :
    (∀ op ∈ [Op.ins 1 10, Op.ins 2 20, Op.rem 1 (C := Nat)],
      op.checksDuplicates = true) ∧
    (mlookup (runOps (Container.empty : Container Nat)
        [Op.ins 1 10, Op.ins 2 20, Op.rem 1]).map 2 = some 0 ↔
      (runOps (Container.empty : Container Nat)
        [Op.ins 1 10, Op.ins 2 20, Op.rem 1]).entities[0]? = some 2) := by
  have h := @index_map_round_trip_checked Nat
    [Op.ins 1 10, Op.ins 2 20, Op.rem 1] (by decide)
  exact ⟨by decide, h.1 2 0⟩

/-- C4: inserting a second component for an already-present entity with the
duplicate-allow mode succeeds, makes `get` return the new component, leaves
the old record still occupied in the dense sequence and still present in the
entity sequence, while the map no longer points at the old slot. -/
theorem duplicate_insert_orphans_old_slot {C : Type} {s : Container C}
    {e i : Nat} (c : C) (hWF : WF s) (hm : mlookup s.map e = some i) :
    (s.insert e c false).2 = false ∧
    (s.insert e c false).1.get e = some c ∧
    (s.insert e c false).1.components[i]? = s.components[i]? ∧
    (s.components[i]?).isSome = true ∧
    (s.insert e c false).1.entities[i]? = some e ∧
    mlookup (s.insert e c false).1.map e = some s.components.length ∧
    i ≠ s.components.length := by
  have hins : s.insert e c false =
      ({ components := s.components ++ [c],
         entities := s.entities ++ [e],
         map := mset s.map e s.components.length }, false) := by
    unfold Container.insert
    simp
  have hlt : i < s.entities.length := hWF.lt_of_mlookup hm
  have hltc : i < s.components.length := by
    rw [hWF.length_eq]
    exact hlt
  have hie : s.entities[i]? = some e := hWF.entities_of_mlookup hm
  have hmap1 : (s.insert e c false).1.map = mset s.map e s.components.length := by
    rw [hins]
  have hcomp1 : (s.insert e c false).1.components = s.components ++ [c] := by
    rw [hins]
  have hent1 : (s.insert e c false).1.entities = s.entities ++ [e] := by
    rw [hins]
  have hm' : mlookup (s.insert e c false).1.map e = some s.components.length := by
    rw [hmap1]
    exact mlookup_mset_self _ _ _
  refine ⟨by rw [hins], ?_, ?_, ?_, ?_, hm', by omega⟩
  · rw [Container.get_eq_of_mlookup hm', hcomp1]
    exact List.getElem?_concat_length _ _
  · rw [hcomp1]
    exact List.getElem?_append_left hltc
  · rw [List.getElem?_eq_getElem hltc]
    rfl
  · rw [hent1]
    rw [List.getElem?_append_left hlt]
    exact hie

/-- C5: duplicate insertion with checking on, and `get` on a missing entity,
each fault, and at the moment of the fault the container state is exactly
the pre-call state (every `assert` precedes all mutation). -/
theorem contract_violations_atomic {C : Type} (s : Container C) (e : Nat) (c : C) :
    (s.has e = true → s.insert e c true = (s, true)) ∧
    (s.has e = false → s.get e = none) := by
  constructor
  · intro h
    exact Container.insert_of_has h
  · intro h
    exact Container.get_eq_none_of_mlookup (Container.has_eq_false_iff.mp h)

/-- C6: removal is idempotent: removing `e` twice equals removing it once,
and removing an absent entity is a fault-free no-op. -/
theorem remove_idempotent {C : Type} (s : Container C) (e : Nat) :
    (s.remove e).remove e = s.remove e ∧
    (s.has e = false → s.remove e = s) := by
  refine ⟨?_, fun h => Container.remove_of_not_has h⟩
  cases hm : mlookup s.map e with
  | none =>
    have hrs : s.remove e = s := by
      unfold Container.remove
      rw [hm]
    rw [hrs]
    exact hrs
  | some i =>
    cases hcb : s.components.getLast? with
    | none =>
      have hrs : s.remove e = s := by
        unfold Container.remove
        rw [hm]
        simp [hcb]
      rw [hrs]
      exact hrs
    | some cb =>
      cases heb : s.entities.getLast? with
      | none =>
        have hrs : s.remove e = s := by
          unfold Container.remove
          rw [hm]
          simp [hcb, heb]
        rw [hrs]
        exact hrs
      | some eb =>
        have hrs : s.remove e =
            { components := (s.components.set i cb).dropLast,
              entities := (s.entities.set i eb).dropLast,
              map := merase (mset s.map eb i) e } := by
          unfold Container.remove
          rw [hm]
          simp [hcb, heb]
        rw [hrs]
        apply Container.remove_of_not_has
        unfold Container.has
        rw [mlookup_remove_map, if_pos rfl]
        rfl

/-- Concrete one-entity container used to witness C4. -/
def w4 : Container Nat := ⟨[10], [1], [(1, 0)]⟩

/-- Witness for C4: duplicate-allow insertion of a second component for
entity 1, which already sits at slot 0. -/
theorem duplicate_insert_orphans_old_slot_witness :
    WF w4 ∧ mlookup w4.map 1 = some 0 ∧
    (w4.insert 1 99 false).2 = false ∧
    (w4.insert 1 99 false).1.get 1 = some 99 ∧
    (w4.insert 1 99 false).1.components[0]? = w4.components[0]? ∧
    (w4.insert 1 99 false).1.entities[0]? = some 1 ∧
    mlookup (w4.insert 1 99 false).1.map 1 = some 1 := by
  have h := @duplicate_insert_orphans_old_slot Nat w4 1 0 99 (by decide) (by decide)
  exact ⟨by decide, by decide, h.1, h.2.1, h.2.2.1, h.2.2.2.2.1, h.2.2.2.2.2.1⟩

/-- Concrete one-entity container used to witness C5. -/
def w5 : Container Nat := ⟨[10], [1], [(1, 0)]⟩

/-- Witness for C5: the duplicate insert for entity 1 faults leaving the
state untouched, and `get` on the absent entity 2 faults. -/
theorem contract_violations_atomic_witness :
    w5.has 1 = true ∧ w5.insert 1 99 true = (w5, true) ∧
    w5.has 2 = false ∧ w5.get 2 = none := by
  exact ⟨by decide, (contract_violations_atomic w5 1 99).1 (by decide),
    by decide, (contract_violations_atomic w5 2 99).2 (by decide)⟩

/-- Concrete two-entity container used to witness C6. -/
def w6 : Container Nat := ⟨[10, 20], [1, 2], [(1, 0), (2, 1)]⟩

/-- Witness for C6 at a concrete container: removing entity 1 twice, and
removing the never-inserted entity 5. -/
theorem remove_idempotent_witness :
    (w6.remove 1).remove 1 = w6.remove 1 ∧
    w6.has 5 = false ∧ w6.remove 5 = w6 := by
  exact ⟨(remove_idempotent w6 1).1, by decide,
    (remove_idempotent w6 5).2 (by decide)⟩

/-- C7 as stated fails on the code: `id_count` is an `unsigned int`
(32 bits), so the 2^32-th construction returns the reserved value 0, which
is not greater than its predecessor, and the construction after that
repeats the very first id. -/
theorem entity_id_wraparound_counterexample :
    nthId (2 ^ 32 - 1) = 0 ∧ nthId (2 ^ 32) = nthId 0 ∧
    ¬nthId (2 ^ 32 - 2) < nthId (2 ^ 32 - 1) := by
  refine ⟨?_, ?_, ?_⟩ <;> norm_num [nthId, idCount_eq, uintSize]

/-- C7 (amended): entity id allocation is strictly monotone and never
returns the reserved value 0 as long as fewer than 2^32 ids have been
issued; the wrap of the `unsigned int` counter happens only at the 2^32-th
construction. -/
theorem entity_id_monotone_bounded {m n : Nat} (hmn : m < n)
    (hn : n ≤ 2 ^ 32 - 2) : 0 < nthId m ∧ nthId m < nthId n := by
  have h32 : (2 : Nat) ^ 32 = 4294967296 := by norm_num
  have hu : uintSize = 4294967296 := by norm_num [uintSize]
  rw [h32] at hn
  have hsmall : ∀ k : Nat, k ≤ 4294967296 - 2 → nthId k = 1 + k := by
    intro k hk
    unfold nthId
    rw [idCount_eq, hu, Nat.mod_eq_of_lt (by omega)]
  rw [hsmall m (by omega), hsmall n (by omega)]
  omega

/-- Witness for the amended C7 at the first two constructions. -/
theorem entity_id_monotone_bounded_witness :
    0 < 1 ∧ (1 : Nat) ≤ 2 ^ 32 - 2 ∧ 0 < nthId 0 ∧ nthId 0 < nthId 1 := by
  have h := @entity_id_monotone_bounded 0 1 (by decide) (by norm_num)
  exact ⟨by decide, by norm_num, h.1, h.2⟩

/-- C8: `remove_all_components_of(e)` calls `remove(e)` exactly once on each
registered container, in order, and afterwards `has(e)` is false on every
registered container. -/
theorem remove_all_components_fanout {C : Type} (regs : List (Container C))
    (e : Nat) (hWF : ∀ r ∈ regs, WF r) :
    (∀ r ∈ remove_all_components_of regs e, r.has e = false) ∧
    (remove_all_components_of regs e).length = regs.length ∧
    (∀ i : Nat, i < regs.length →
      (remove_all_components_of regs e)[i]? =
        (regs[i]?).map fun r => r.remove e) := by
  refine ⟨?_, by simp [remove_all_components_of], ?_⟩
  · intro r hr
    obtain ⟨r0, hr0, hr0e⟩ := List.mem_map.mp hr
    rw [← hr0e]
    exact Container.has_remove_self (hWF r0 hr0) e
  · intro i hi
    simp [remove_all_components_of]

/-- Concrete registry of two containers used to witness C8: the first holds
entity 1, the second does not. -/
def w8a : Container Nat := ⟨[10], [1], [(1, 0)]⟩

/-- Second registry entry for the C8 witness. -/
def w8b : Container Nat := ⟨[5], [2], [(2, 0)]⟩

/-- Witness for C8 on a concrete two-container registry. -/
theorem remove_all_components_fanout_witness :
    (∀ r ∈ [w8a, w8b], WF r) ∧
    (∀ r ∈ remove_all_components_of [w8a, w8b] 1, r.has 1 = false) ∧
    (remove_all_components_of [w8a, w8b] 1).length = 2 := by
  have h := remove_all_components_fanout [w8a, w8b] 1 (by decide)
  exact ⟨by decide, h.1, h.2.1⟩

/-- C9: on a well-formed (duplicate-free) container, `sort` with a total and
transitive comparator never faults, leaves the entity sequence ordered by
the comparator, and every previously present entity is still present with
its original component value (the index map is correctly rebuilt). -/
theorem sort_correct {C : Type} {s : Container C} {le : Nat → Nat → Bool}
    (hWF : WF s)
    (htot : ∀ a b, le a b = true ∨ le b a = true)
    (htrans : ∀ a b c, le a b = true → le b c = true → le a c = true) :
    (s.sort le).2 = false ∧
    ((s.sort le).1.entities).Pairwise (fun a b => le a b = true) ∧
    (∀ e, s.has e = true →
      (s.sort le).1.has e = true ∧ (s.sort le).1.get e = s.get e) := by
  obtain ⟨cs, hcs, hsort⟩ := Container.sort_eq hWF le
  have hnd : (insertionSortB le s.entities).Nodup :=
    (perm_insertionSortB le s.entities).nodup_iff.mpr hWF.entities_nodup
  have hent1 : (s.sort le).1.entities = insertionSortB le s.entities := by
    rw [hsort]
  have hcomp1 : (s.sort le).1.components = cs := by
    rw [hsort]
  have hmap1 : (s.sort le).1.map =
      buildMap (insertionSortB le s.entities) 0 s.map := by
    rw [hsort]
  refine ⟨by rw [hsort], ?_, ?_⟩
  · rw [hent1]
    exact pairwise_insertionSortB htot htrans _
  · intro e he
    obtain ⟨i, hm⟩ := Container.has_iff_mlookup.mp he
    have hie := hWF.entities_of_mlookup hm
    have hmem : e ∈ insertionSortB le s.entities :=
      (perm_insertionSortB le s.entities).mem_iff.mpr (mem_of_getElem_some hie)
    obtain ⟨j, hj⟩ := List.getElem?_of_mem hmem
    have hm' : mlookup (s.sort le).1.map e = some j := by
      rw [hmap1]
      simpa using mlookup_buildMap_getElem 0 s.map hnd hj
    refine ⟨Container.has_of_mlookup hm', ?_⟩
    rw [Container.get_eq_of_mlookup hm', hcomp1]
    exact getsAll_getElem hcs hj

/-- Concrete unsorted container used to witness C9. -/
def w9 : Container Nat := ⟨[20, 10], [2, 1], [(2, 0), (1, 1)]⟩

/-- Witness for C9: sorting a concrete two-entity container by `Nat.ble`. -/
theorem sort_correct_witness :
    WF w9 ∧ (w9.sort Nat.ble).2 = false ∧
    ((w9.sort Nat.ble).1.entities).Pairwise (fun a b => Nat.ble a b = true) ∧
    w9.has 1 = true ∧ (w9.sort Nat.ble).1.has 1 = true ∧
    (w9.sort Nat.ble).1.get 1 = w9.get 1 := by
  have h := @sort_correct Nat w9 Nat.ble (by decide)
    (fun a b => by
      rcases Nat.le_total a b with hh | hh
      · exact Or.inl (by simpa using hh)
      · exact Or.inr (by simpa using hh))
    (fun a b c hab hbc => by
      simp only [Nat.ble_eq] at hab hbc ⊢
      omega)
  exact ⟨by decide, h.1, h.2.1, by decide, (h.2.2 1 (by decide)).1,
    (h.2.2 1 (by decide)).2⟩

/-- C10: inserting a component for an absent entity `e2` leaves every other
entity's observable state unchanged: `has` is unchanged and `get` returns
the same component value; moreover both insertion modes coincide on an
absent entity. -/
theorem insert_frame {C : Type} {s : Container C} {e2 : Nat} (c : C)
    (hWF : WF s) (habs : s.has e2 = false) :
    s.insert e2 c false = s.insert e2 c true ∧
    (∀ e1, e1 ≠ e2 →
      (s.insert e2 c true).1.has e1 = s.has e1 ∧
      (s.has e1 = true → (s.insert e2 c true).1.get e1 = s.get e1)) := by
  have hins := Container.insert_of_not_has (b := true) (c := c) habs
  have hins' := Container.insert_of_not_has (b := false) (c := c) habs
  constructor
  · rw [hins, hins']
  · intro e1 hne
    have hmap1 : (s.insert e2 c true).1.map =
        mset s.map e2 s.components.length := by
      rw [hins]
    have hml : mlookup (s.insert e2 c true).1.map e1 = mlookup s.map e1 := by
      rw [hmap1]
      exact mlookup_mset_ne _ _ _ _ hne
    constructor
    · unfold Container.has
      rw [hml]
    · intro hhas
      obtain ⟨j, hj⟩ := Container.has_iff_mlookup.mp hhas
      have hj' : mlookup (s.insert e2 c true).1.map e1 = some j := by
        rw [hml]
        exact hj
      rw [Container.get_eq_of_mlookup hj', Container.get_eq_of_mlookup hj]
      have hcomp1 : (s.insert e2 c true).1.components = s.components ++ [c] := by
        rw [hins]
      rw [hcomp1]
      have hjlt : j < s.components.length := by
        rw [hWF.length_eq]
        exact hWF.lt_of_mlookup hj
      exact List.getElem?_append_left hjlt

/-- Concrete one-entity container used to witness C10. -/
def w10 : Container Nat := ⟨[10], [1], [(1, 0)]⟩

/-- Witness for C10: inserting for the fresh entity 2 leaves entity 1
untouched. -/
theorem insert_frame_witness :
    WF w10 ∧ w10.has 2 = false ∧
    w10.insert 2 20 false = w10.insert 2 20 true ∧
    (w10.insert 2 20 true).1.has 1 = w10.has 1 ∧
    (w10.insert 2 20 true).1.get 1 = w10.get 1 := by
  have h := @insert_frame Nat w10 2 20 (by decide) (by decide)
  exact ⟨by decide, by decide, h.1, (h.2 1 (by decide)).1,
    (h.2 1 (by decide)).2 (by decide)⟩

end ECS
